import Mathlib

/-!
Shallow embedding of the scraper in src/main.py.

HTML documents are represented as forests of parsed DOM nodes. The
BeautifulSoup operations actually used by the code (find and find_all by tag
name and class, attribute access, text extraction, strip) are modelled on
that representation, and the four functions of the source file
(parse_page, get_pagination_links, save_to_csv, save_to_json) are
translated on top of them. Python exceptions (KeyError on a missing
attribute, TypeError or AttributeError from indexing None) are modelled by
Option: none is an uncaught error escaping the function.
-/

mutual
/-- A parsed DOM node: an element with a tag name, attributes and children,
or a text node. Attribute values are plain strings, as in the document. -/
inductive Html where
  | element (tag : String) (attrs : List (String × String)) (children : HtmlForest)
  | text (s : String)

/-- A sequence of sibling DOM nodes; a whole parsed document is one forest. -/
inductive HtmlForest where
  | nil
  | cons (head : Html) (tail : HtmlForest)
end

/-- Build a forest from a list of nodes, for writing documents down. -/
def forestOf : List Html → HtmlForest
  | [] => .nil
  | h :: t => .cons h (forestOf t)

/-- Children of a node; a text node has none. -/
def Html.childrenOf : Html → HtmlForest
  | .element _ _ c => c
  | .text _ => .nil

/-- Attribute list of a node; a text node has none. -/
def Html.attrsOf : Html → List (String × String)
  | .element _ a _ => a
  | .text _ => []

/-- Attribute lookup, first binding wins; none models a missing attribute
(in Python, indexing raises KeyError). -/
def getAttr (attrs : List (String × String)) (key : String) : Option String :=
  (attrs.find? (fun kv => kv.1 == key)).map (fun kv => kv.2)

/-- Split a character list on spaces, dropping empty pieces. Models how
BeautifulSoup turns a class attribute into its list of class names. -/
def splitSpaces : List Char → List Char → List (List Char)
  | [], acc => if acc.isEmpty then [] else [acc.reverse]
  | c :: rest, acc =>
    if c = ' ' then
      if acc.isEmpty then splitSpaces rest [] else acc.reverse :: splitSpaces rest []
    else splitSpaces rest (c :: acc)

/-- Join class names back with single spaces. -/
def joinSpaces : List (List Char) → List Char
  | [] => []
  | [t] => t
  | t :: ts => t ++ ' ' :: joinSpaces ts

/-- BeautifulSoup class matching for a string query against the (optional)
class attribute of an element: the query matches if it is one of the class
names, or, when the query itself contains a space, if it equals the whole
class list joined back together. An element without a class attribute never
matches. -/
def classMatch (attr : Option String) (q : String) : Bool :=
  match attr with
  | none => false
  | some cstr =>
    let toks := splitSpaces cstr.data []
    toks.contains q.data || (q.data.contains ' ' && q.data == joinSpaces toks)

mutual
/-- All matching elements inside one node, the node itself included, in
document (pre-)order. -/
def findInNode (tag cls : String) : Html → List Html
  | Html.text _ => []
  | Html.element t a c =>
    (if t == tag && classMatch (getAttr a "class") cls then [Html.element t a c] else [])
      ++ findAllNodes tag cls c

/-- All elements of the forest with the given tag whose class attribute
matches the query, in document (pre-)order. Models find_all(tag, class_=q);
the first element of the result models find(tag, class_=q). -/
def findAllNodes (tag cls : String) : HtmlForest → List Html
  | .nil => []
  | .cons h t => findInNode tag cls h ++ findAllNodes tag cls t
end

mutual
/-- Concatenated text content of one node, as characters. Models the .text
property of a BeautifulSoup node. -/
def textOfNode : Html → List Char
  | Html.text s => s.data
  | Html.element _ _ c => textChars c

/-- Concatenated text content of a forest, as characters. -/
def textChars : HtmlForest → List Char
  | .nil => []
  | .cons h t => textOfNode h ++ textChars t
end

/-- Strip leading and trailing whitespace from a character list. Models the
Python str.strip() call used on extracted text. -/
def stripChars (l : List Char) : List Char :=
  ((l.dropWhile Char.isWhitespace).reverse.dropWhile Char.isWhitespace).reverse

/-- A scraped record, as the Python code builds it: a dictionary in
insertion order, modelled as an association list. -/
abbrev Dict := List (String × String)

/-- mapM specialised to Option, written out so that proofs can unfold it:
the first failing element makes the whole result fail. -/
def optMapM (f : α → Option β) : List α → Option (List β)
  | [] => some []
  | a :: l =>
    match f a with
    | some b => (optMapM f l).map (fun bs => b :: bs)
    | none => none

/-- The anchor carrying class title inside a card-body block:
block.find(the letter a, class_=title). -/
def titleAnchor (b : Html) : Option Html :=
  (findAllNodes "a" "title" b.childrenOf).head?

/-- The description paragraph inside a block:
block.find(p, class_=description card-text). -/
def descElem (b : Html) : Option Html :=
  (findAllNodes "p" "description card-text" b.childrenOf).head?

/-- The price heading inside a block: block.find(h4, class_=price). -/
def priceElem (b : Html) : Option Html :=
  (findAllNodes "h4" "price" b.childrenOf).head?

/-- Extraction of one record from one card-body block, in the order the
Python statements run: Name from the title attribute of the title anchor,
then Description and Price as stripped text. A missing element or missing
title attribute makes the whole block fail (uncaught exception). -/
def parseBlock (b : Html) : Option Dict := do
  let a ← titleAnchor b
  let nm ← getAttr a.attrsOf "title"
  let p ← descElem b
  let h ← priceElem b
  pure [("Name", nm),
        ("Description", String.mk (stripChars (textOfNode p))),
        ("Price", String.mk (stripChars (textOfNode h)))]

/-- parse_page from src/main.py: find all div elements of class card-body
and extract one record per block, in document order; any failing block
aborts the whole page. -/
def parse_page (page : HtmlForest) : Option (List Dict) :=
  optMapM parseBlock (findAllNodes "div" "card-body" page)

/-- Character class of the regex fragment [\w.-] over its ASCII fragment:
letters, digits, underscore, dot, hyphen. -/
def isHostChar (c : Char) : Bool :=
  c.isAlphanum || c = '_' || c = '.' || c = '-'

/-- One alternative of the anchored regex (https?://[\w.-]+)/.* : if the
input starts with the given scheme literal followed by a nonempty run of
host characters and then a slash, return the scheme plus host (group 1). -/
def matchScheme (scheme : List Char) (l : List Char) : Option (List Char) :=
  if scheme.isPrefixOf l then
    let rest := l.drop scheme.length
    let host := rest.takeWhile isHostChar
    if host.isEmpty then none
    else
      match rest.drop host.length with
      | '/' :: _ => some (scheme ++ host)
      | _ => none
  else none

/-- re.match of the pattern (https?://[\w.-]+)/.* against the source URL,
returning group 1 on success. The https alternative is tried first, as the
greedy optional s does. -/
def originMatch (url : String) : Option String :=
  match matchScheme "https://".data url.data with
  | some o => some (String.mk o)
  | none => (matchScheme "http://".data url.data).map String.mk

/-- Absolute URL built for one pagination anchor: its href attribute
(KeyError if absent) concatenated onto group 1 of the origin match
(AttributeError if the match failed), in that evaluation order. -/
def linkTarget (url : String) (link : Html) : Option String :=
  (getAttr link.attrsOf "href").bind
    (fun href => (originMatch url).map (fun origin => origin ++ href))

/-- get_pagination_links from src/main.py: find the first ul of class
pagination; if none exists return the empty list; otherwise return the
source URL followed by the absolute URL of every anchor of class page-link
inside the container, in document order. -/
def get_pagination_links (page : HtmlForest) (url : String) : Option (List String) :=
  match (findAllNodes "ul" "pagination" page).head? with
  | some pag =>
    (optMapM (linkTarget url) (findAllNodes "a" "page-link" pag.childrenOf)).map
      (fun links => url :: links)
  | none => some []

/-- Keys of a record dictionary, in insertion order. -/
def dictKeys (d : Dict) : List String := d.map (fun kv => kv.1)

/-- Dictionary lookup, first binding wins. -/
def dictGet (d : Dict) (k : String) : Option String :=
  (d.find? (fun kv => kv.1 == k)).map (fun kv => kv.2)

/-- Outcome of save_to_csv: the guard may skip the file entirely, the writer
may finish all rows, or a row whose keys are not all among the fieldnames
raises ValueError after some rows were already written. Each row is the
list of its cells. -/
inductive CsvOutcome where
  | noFile
  | ok (rows : List (List String))
  | err (written : List (List String))
deriving DecidableEq, Repr

/-- Fieldnames chosen by save_to_csv: the keys of the first record of the
first batch, or the empty list when the first batch is empty. -/
def csvFieldnames (data : List (List Dict)) : List String :=
  match data with
  | [] => []
  | b :: _ =>
    match b with
    | [] => []
    | r :: _ => dictKeys r

/-- Cells produced by csv.DictWriter.writerow for one record: one cell per
fieldname, the value under that key, or the empty cell for a missing key
(restval None). -/
def rowCells (fns : List String) (r : Dict) : List String :=
  fns.map (fun k => (dictGet r k).getD "")

/-- The writerow loop of save_to_csv over the flattened records: each record
whose keys all appear among the fieldnames contributes one row; a record
with any extra key raises ValueError, keeping only the rows written so far. -/
def writeRowsLoop (fns : List String) (rows : List Dict) (acc : List (List String)) :
    CsvOutcome :=
  match rows with
  | [] => .ok acc
  | r :: rs =>
    if r.all (fun kv => fns.contains kv.1) then
      writeRowsLoop fns rs (acc ++ [rowCells fns r])
    else .err acc

/-- save_to_csv from src/main.py: an empty batch list writes no file at all;
otherwise the header row of fieldnames is written first and then one row
per record of every batch, in batch order then in-batch order. -/
def save_to_csv (data : List (List Dict)) : CsvOutcome :=
  if data.isEmpty then .noFile
  else writeRowsLoop (csvFieldnames data) data.flatten [csvFieldnames data]

/-- Hexadecimal digit characters, lowercase, as json.dump emits them. -/
def hexDig (n : Nat) : Char :=
  if n = 0 then '0' else if n = 1 then '1' else if n = 2 then '2'
  else if n = 3 then '3' else if n = 4 then '4' else if n = 5 then '5'
  else if n = 6 then '6' else if n = 7 then '7' else if n = 8 then '8'
  else if n = 9 then '9' else if n = 10 then 'a' else if n = 11 then 'b'
  else if n = 12 then 'c' else if n = 13 then 'd' else if n = 14 then 'e'
  else 'f'

/-- Value of a hexadecimal digit character, accepting both cases. -/
def hexVal (c : Char) : Option Nat :=
  if c = '0' then some 0 else if c = '1' then some 1 else if c = '2' then some 2
  else if c = '3' then some 3 else if c = '4' then some 4 else if c = '5' then some 5
  else if c = '6' then some 6 else if c = '7' then some 7 else if c = '8' then some 8
  else if c = '9' then some 9 else if c = 'a' then some 10 else if c = 'b' then some 11
  else if c = 'c' then some 12 else if c = 'd' then some 13 else if c = 'e' then some 14
  else if c = 'f' then some 15 else if c = 'A' then some 10 else if c = 'B' then some 11
  else if c = 'C' then some 12 else if c = 'D' then some 13 else if c = 'E' then some 14
  else if c = 'F' then some 15 else none

/-- Escaping of one character by json.dump with ensure_ascii False: quote,
backslash and the five short control escapes get two-character escapes,
every other control character below 32 becomes a lowercase unicode escape,
and every other character, non-ASCII included, is written literally. -/
def escCharL (c : Char) : List Char :=
  if c = '"' then ['\\', '"']
  else if c = '\\' then ['\\', '\\']
  else if c = '\x08' then ['\\', 'b']
  else if c = '\x0c' then ['\\', 'f']
  else if c = '\n' then ['\\', 'n']
  else if c = '\r' then ['\\', 'r']
  else if c = '\t' then ['\\', 't']
  else if c.toNat < 32 then ['\\', 'u', '0', '0', hexDig (c.toNat / 16), hexDig (c.toNat % 16)]
  else [c]

/-- Escaping of a whole character list. -/
def escapeL (l : List Char) : List Char := l.flatMap escCharL

/-- Escaping of one character, as a string. -/
def escChar (c : Char) : String := String.mk (escCharL c)

/-- A JSON string literal: escaped content between double quotes. -/
def renderStrL (s : String) : List Char := '"' :: escapeL s.data ++ ['"']

/-- One object member, key colon space value, the separator json.dump uses
with an indent. -/
def renderMemberL (kv : String × String) : List Char :=
  renderStrL kv.1 ++ ':' :: ' ' :: renderStrL kv.2

/-- A newline followed by an indentation of n spaces. -/
def indChars (n : Nat) : List Char := '\n' :: List.replicate n ' '

/-- One record rendered as a JSON object at nesting depth one, with the
four-space indent of json.dump: members on their own lines indented eight
spaces, the closing brace indented four. -/
def renderDictL (d : Dict) : List Char :=
  match d with
  | [] => ['\x7b', '\x7d']
  | m :: ms =>
    '\x7b' :: (indChars 8 ++ renderMemberL m
      ++ ms.flatMap (fun kv => ',' :: (indChars 8 ++ renderMemberL kv))
      ++ indChars 4 ++ ['\x7d'])

/-- The flattened record list rendered as a JSON array with indent four. -/
def renderArrL (l : List Dict) : List Char :=
  match l with
  | [] => ['[', ']']
  | d :: ds =>
    '[' :: (indChars 4 ++ renderDictL d
      ++ ds.flatMap (fun d2 => ',' :: (indChars 4 ++ renderDictL d2))
      ++ '\n' :: [']'])

/-- Full file content written by json.dump(flat, ensure_ascii=False,
indent=4) for the flattened record list. -/
def renderJson (flat : List Dict) : String := String.mk (renderArrL flat)

/-- Outcome of save_to_json: either the guard skips the file, or the file
holds the rendered text. -/
inductive JsonOutcome where
  | noFile
  | ok (content : String)
deriving DecidableEq, Repr

/-- save_to_json from src/main.py: an empty batch list writes no file;
otherwise the batches are flattened and dumped as one JSON array. -/
def save_to_json (data : List (List Dict)) : JsonOutcome :=
  if data.isEmpty then .noFile
  else .ok (renderJson data.flatten)

/-- Skip JSON whitespace at the front of the input. -/
def skipWs : List Char → List Char
  | [] => []
  | c :: rest => if c.isWhitespace then skipWs rest else c :: rest

/-- Decode one escape sequence, the part after the backslash: the short
escapes and the four-hex-digit unicode escape. -/
def parseEsc (r : List Char) : Option (Char × List Char) :=
  match r with
  | [] => none
  | e :: r2 =>
    if e = '"' then some ('"', r2)
    else if e = '\\' then some ('\\', r2)
    else if e = '/' then some ('/', r2)
    else if e = 'b' then some ('\x08', r2)
    else if e = 'f' then some ('\x0c', r2)
    else if e = 'n' then some ('\n', r2)
    else if e = 'r' then some ('\r', r2)
    else if e = 't' then some ('\t', r2)
    else if e = 'u' then
      match r2 with
      | h1 :: h2 :: h3 :: h4 :: r3 =>
        match hexVal h1, hexVal h2, hexVal h3, hexVal h4 with
        | some a, some b, some c, some d =>
          some (Char.ofNat (((a * 16 + b) * 16 + c) * 16 + d), r3)
        | _, _, _, _ => none
      | _ => none
    else none

/-- Parse the body of a JSON string literal after its opening quote,
returning the decoded characters and the remainder after the closing quote.
Unescaped control characters are rejected, as a JSON parser does. The fuel
bounds the number of decoded characters; callers pass the input length,
which always suffices since every decoded character consumes input. -/
def parseStrLit (fuel : Nat) (l : List Char) : Option (List Char × List Char) :=
  match fuel with
  | 0 => none
  | fuel + 1 =>
    match l with
    | [] => none
    | c :: r =>
      if c = '"' then some ([], r)
      else if c = '\\' then
        match parseEsc r with
        | some (d, r2) =>
          match parseStrLit fuel r2 with
          | some (s, r3) => some (d :: s, r3)
          | none => none
        | none => none
      else if c.toNat < 32 then none
      else
        match parseStrLit fuel r with
        | some (s, r3) => some (c :: s, r3)
        | none => none

/-- Parse one object member: key string, colon, value string, with optional
leading whitespace. -/
def parseMember (l : List Char) : Option ((String × String) × List Char) :=
  match skipWs l with
  | [] => none
  | c :: r =>
    if c = '"' then
      match parseStrLit r.length r with
      | some (k, r2) =>
        match skipWs r2 with
        | [] => none
        | c2 :: r3 =>
          if c2 = ':' then
            match skipWs r3 with
            | [] => none
            | c3 :: r4 =>
              if c3 = '"' then
                match parseStrLit r4.length r4 with
                | some (v, r5) => some ((String.mk k, String.mk v), r5)
                | none => none
              else none
          else none
      | none => none
    else none

/-- Parse the members of an object after its first member: either a closing
brace or a comma followed by one more member, repeated. The fuel bounds the
number of remaining members. -/
def parseMembersLoop (fuel : Nat) (acc : Dict) (l : List Char) : Option (Dict × List Char) :=
  match fuel with
  | 0 => none
  | fuel + 1 =>
    match skipWs l with
    | [] => none
    | c :: r =>
      if c = '\x7d' then some (acc, r)
      else if c = ',' then
        match parseMember r with
        | some (kv, r2) => parseMembersLoop fuel (acc ++ [kv]) r2
        | none => none
      else none

/-- Parse one JSON object of string members into a record dictionary. -/
def parseDict (fuel : Nat) (l : List Char) : Option (Dict × List Char) :=
  match skipWs l with
  | [] => none
  | c :: r =>
    if c = '\x7b' then
      match skipWs r with
      | [] => none
      | c2 :: r2 =>
        if c2 = '\x7d' then some ([], r2)
        else
          match parseMember r with
          | some (kv, r3) => parseMembersLoop fuel [kv] r3
          | none => none
    else none

/-- Parse the items of an array after its first item: either a closing
bracket or a comma followed by one more object, repeated. -/
def parseItemsLoop (fuel : Nat) (acc : List Dict) (l : List Char) :
    Option (List Dict × List Char) :=
  match fuel with
  | 0 => none
  | fuel + 1 =>
    match skipWs l with
    | [] => none
    | c :: r =>
      if c = ']' then some (acc, r)
      else if c = ',' then
        match parseDict r.length r with
        | some (d, r2) => parseItemsLoop fuel (acc ++ [d]) r2
        | none => none
      else none

/-- Parse one JSON array of objects of string members. -/
def parseArr (fuel : Nat) (l : List Char) : Option (List Dict × List Char) :=
  match skipWs l with
  | [] => none
  | c :: r =>
    if c = '[' then
      match skipWs r with
      | [] => none
      | c2 :: r2 =>
        if c2 = ']' then some ([], r2)
        else
          match parseDict r.length r with
          | some (d, r3) => parseItemsLoop fuel [d] r3
          | none => none
    else none

/-- Parse a whole document holding a JSON array of flat string objects,
rejecting trailing garbage: the reading model for json.load on the file
this program writes. -/
def parseJson (s : String) : Option (List Dict) :=
  match parseArr (s.data.length + 1) s.data with
  | some (ds, r) => if skipWs r = [] then some ds else none
  | none => none

/-- Key sequence of every record parse_page builds, in insertion order. -/
def stdKeys : List String := ["Name", "Description", "Price"]

/-- The three lookups of parse_page all succeed on this block: the title
anchor exists and carries a title attribute, and the description paragraph
and price heading exist. -/
def wellFormedBlock (b : Html) : Bool :=
  ((titleAnchor b).bind (fun a => getAttr a.attrsOf "title")).isSome &&
  (descElem b).isSome && (priceElem b).isSome

/-- The record parse_page builds for a well-formed block: the title
attribute of the title anchor, and the stripped text of the description
paragraph and of the price heading. -/
def recOf (b : Html) : Dict :=
  [("Name", ((titleAnchor b).bind (fun a => getAttr a.attrsOf "title")).getD ""),
   ("Description", ((descElem b).map (fun p => String.mk (stripChars (textOfNode p)))).getD ""),
   ("Price", ((priceElem b).map (fun h => String.mk (stripChars (textOfNode h)))).getD "")]

theorem optMapM_length {α β : Type} (f : α → Option β) (l : List α) (ys : List β)
    (h : optMapM f l = some ys) : ys.length = l.length := by
  induction l generalizing ys with
  | nil => simp [optMapM] at h; simp [h.symm]
  | cons a t ih =>
    unfold optMapM at h
    cases hf : f a with
    | none => rw [hf] at h; cases h
    | some b =>
      rw [hf] at h
      cases ht : optMapM f t with
      | none => rw [ht] at h; cases h
      | some tl =>
        rw [ht] at h
        cases h
        simp [ih tl ht]

theorem optMapM_eq_map {α β : Type} (f : α → Option β) (g : α → β) (l : List α)
    (h : ∀ a ∈ l, f a = some (g a)) : optMapM f l = some (l.map g) := by
  induction l with
  | nil => rfl
  | cons a t ih =>
    unfold optMapM
    rw [h a (by simp), ih (fun x hx => h x (by simp [hx]))]
    rfl

theorem optMapM_eq_none {α β : Type} (f : α → Option β) (l : List α) (a : α)
    (ha : a ∈ l) (hf : f a = none) : optMapM f l = none := by
  induction l with
  | nil => cases ha
  | cons b t ih =>
    unfold optMapM
    rcases List.mem_cons.1 ha with rfl | hmem
    · rw [hf]
    · cases hb : f b with
      | none => rfl
      | some y => rw [ih hmem]; rfl

/-- C2: on a page with no pagination container at all, get_pagination_links
returns the empty sequence, not the singleton holding the source URL, for
every source URL. -/
theorem C2_no_pagination_empty_result (page : HtmlForest) (url : String)
    (h : findAllNodes "ul" "pagination" page = []) :
    get_pagination_links page url = some [] ∧
    get_pagination_links page url ≠ some [url] := by
  have hres : get_pagination_links page url = some [] := by
    unfold get_pagination_links
    rw [h]
    rfl
  exact ⟨hres, by rw [hres]; simp⟩

theorem C2_witness :
    get_pagination_links (forestOf [Html.element "div" [] .nil]) "https://e.com/x" = some [] ∧
    get_pagination_links (forestOf [Html.element "div" [] .nil]) "https://e.com/x" ≠
      some ["https://e.com/x"] :=
  C2_no_pagination_empty_result (forestOf [Html.element "div" [] .nil]) "https://e.com/x" rfl

/-- C10: when the source URL does not match the origin pattern, the function
still returns the empty sequence if there is no pagination container, still
returns exactly the singleton source URL if the container has no page-link
anchors, and raises only when the container holds at least one page-link
anchor. -/
theorem C10_origin_mismatch_behavior (page : HtmlForest) (url : String) :
    (findAllNodes "ul" "pagination" page = [] →
      get_pagination_links page url = some []) ∧
    (∀ pag rest, findAllNodes "ul" "pagination" page = pag :: rest →
      findAllNodes "a" "page-link" pag.childrenOf = [] →
      get_pagination_links page url = some [url]) ∧
    (∀ pag rest a anchors, findAllNodes "ul" "pagination" page = pag :: rest →
      findAllNodes "a" "page-link" pag.childrenOf = a :: anchors →
      originMatch url = none →
      get_pagination_links page url = none) := by
  refine ⟨?_, ?_, ?_⟩
  · intro h
    unfold get_pagination_links
    rw [h]
    rfl
  · intro pag rest h1 h2
    unfold get_pagination_links
    rw [h1]
    simp only [List.head?_cons]
    rw [h2]
    rfl
  · intro pag rest a anchors h1 h2 ho
    have hlt : linkTarget url a = none := by
      unfold linkTarget
      cases hg : getAttr a.attrsOf "href" <;> simp [ho]
    unfold get_pagination_links
    rw [h1]
    simp only [List.head?_cons]
    rw [h2]
    unfold optMapM
    rw [hlt]
    rfl

theorem C10_witness :
    get_pagination_links (forestOf []) "nourl" = some [] ∧
    get_pagination_links (forestOf [Html.element "ul" [("class", "pagination")] .nil]) "nourl" =
      some ["nourl"] ∧
    get_pagination_links
      (forestOf [Html.element "ul" [("class", "pagination")]
        (forestOf [Html.element "a" [("class", "page-link"), ("href", "/p2")] .nil])]) "nourl" =
      none := by
  refine ⟨(C10_origin_mismatch_behavior (forestOf []) "nourl").1 rfl,
    (C10_origin_mismatch_behavior
      (forestOf [Html.element "ul" [("class", "pagination")] .nil]) "nourl").2.1
      (Html.element "ul" [("class", "pagination")] .nil) [] rfl rfl,
    (C10_origin_mismatch_behavior
      (forestOf [Html.element "ul" [("class", "pagination")]
        (forestOf [Html.element "a" [("class", "page-link"), ("href", "/p2")] .nil])]) "nourl").2.2
      (Html.element "ul" [("class", "pagination")]
        (forestOf [Html.element "a" [("class", "page-link"), ("href", "/p2")] .nil]))
      [] (Html.element "a" [("class", "page-link"), ("href", "/p2")] .nil) [] rfl rfl rfl⟩

/-- C5: the concrete one-block page titled ThinkPad X1 with description and
price text carrying surrounding spaces yields exactly one record with the
three keys of the record dictionary and the trimmed values. -/
theorem C5_thinkpad_scenario :
    parse_page (forestOf
      [Html.element "div" [("class", "card-body")] (forestOf
        [Html.element "a" [("class", "title"), ("title", "ThinkPad X1")]
          (forestOf [Html.text "ThinkPad X1"]),
         Html.element "p" [("class", "description card-text")]
          (forestOf [Html.text " Fast laptop "]),
         Html.element "h4" [("class", "price")]
          (forestOf [Html.text " $999 "])])]) =
    some [[("Name", "ThinkPad X1"), ("Description", "Fast laptop"), ("Price", "$999")]] := by
  decide

/-- C7: on the empty batch sequence neither exporter opens or writes its
output file; both are a no-op, not an error. -/
theorem C7_empty_input_no_write :
    save_to_csv [] = CsvOutcome.noFile ∧ save_to_json [] = JsonOutcome.noFile :=
  ⟨rfl, rfl⟩

/-- C9: with an empty first batch followed by at least one record in a later
batch, save_to_csv derives an empty fieldname set, writes only the empty
header row, and raises on the first record, so no data row is written. -/
theorem C9_empty_first_batch_value_error (bs : List (List Dict)) (r : Dict) (rs : List Dict)
    (hflat : bs.flatten = r :: rs) (hr : r ≠ []) :
    csvFieldnames ([] :: bs) = [] ∧
    save_to_csv ([] :: bs) = CsvOutcome.err [[]] := by
  refine ⟨rfl, ?_⟩
  unfold save_to_csv
  have h1 : (([] : List Dict) :: bs).isEmpty = false := rfl
  rw [h1]
  have h2 : (([] : List Dict) :: bs).flatten = r :: rs := by
    rw [List.flatten_cons, List.nil_append, hflat]
  simp only [h2]
  have h3 : csvFieldnames ([] :: bs) = [] := rfl
  rw [h3]
  unfold writeRowsLoop
  obtain ⟨kv, tl, rfl⟩ : ∃ kv tl, r = kv :: tl := by
    cases r with
    | nil => exact absurd rfl hr
    | cons kv tl => exact ⟨kv, tl, rfl⟩
  simp [List.contains]

theorem C9_witness :
    csvFieldnames ([] :: [[[("Name", "d"), ("Description", "e"), ("Price", "f")]]]) = [] ∧
    save_to_csv ([] :: [[[("Name", "d"), ("Description", "e"), ("Price", "f")]]]) =
      CsvOutcome.err [[]] :=
  C9_empty_first_batch_value_error [[[("Name", "d"), ("Description", "e"), ("Price", "f")]]]
    [("Name", "d"), ("Description", "e"), ("Price", "f")] [] rfl (by decide)

theorem matchScheme_full (scheme host rest : List Char)
    (hh : host ≠ []) (hhc : ∀ c ∈ host, isHostChar c = true) :
    matchScheme scheme (scheme ++ (host ++ '/' :: rest)) = some (scheme ++ host) := by
  unfold matchScheme
  rw [if_pos (List.isPrefixOf_iff_prefix.2 (List.prefix_append _ _))]
  have hdrop : (scheme ++ (host ++ '/' :: rest)).drop scheme.length = host ++ '/' :: rest :=
    List.drop_left _ _
  have htake : (host ++ '/' :: rest).takeWhile isHostChar = host := by
    rw [List.takeWhile_append, if_pos]
    · rw [List.takeWhile_cons]
      simp [isHostChar]
    · rw [List.takeWhile_eq_self_iff.2 hhc]
  simp only [hdrop, htake]
  rw [if_neg (by simp [hh])]
  rw [List.drop_left]
  rfl

theorem originMatch_of_split (scheme host rest : List Char) (url : String)
    (hsch : scheme = "https://".data ∨ scheme = "http://".data)
    (hu : url.data = scheme ++ (host ++ '/' :: rest))
    (hh : host ≠ []) (hhc : ∀ c ∈ host, isHostChar c = true) :
    originMatch url = some (String.mk (scheme ++ host)) := by
  unfold originMatch
  rcases hsch with h | h <;> subst h
  · rw [hu, matchScheme_full _ _ _ hh hhc]
  · rw [hu]
    have hno : matchScheme "https://".data ("http://".data ++ (host ++ '/' :: rest)) = none := rfl
    rw [hno, matchScheme_full _ _ _ hh hhc]
    rfl

theorem optMapM_linkTarget (url origin : String) (ho : originMatch url = some origin)
    (links : List Html) (hrefs : List String)
    (ha : optMapM (fun a => getAttr a.attrsOf "href") links = some hrefs) :
    optMapM (linkTarget url) links = some (hrefs.map (fun h => origin ++ h)) := by
  induction links generalizing hrefs with
  | nil =>
    unfold optMapM at ha
    cases ha
    rfl
  | cons a l ih =>
    unfold optMapM at ha
    cases hg : getAttr a.attrsOf "href" with
    | none => rw [hg] at ha; cases ha
    | some h =>
      rw [hg] at ha
      cases ht : optMapM (fun a => getAttr a.attrsOf "href") l with
      | none => rw [ht] at ha; cases ha
      | some tl =>
        rw [ht] at ha
        cases ha
        have hlt : linkTarget url a = some (origin ++ h) := by
          unfold linkTarget
          rw [hg, ho]
          rfl
        unfold optMapM
        rw [hlt, ih tl ht]
        rfl

/-- C1: on a listing page with a pagination container, for a source URL of
the shape scheme, host, slash, remainder, and with every page-link anchor
carrying an href, the result is the source URL followed by one entry per
anchor in document order, each the scheme-plus-host origin concatenated
with the href of that anchor, with no de-duplication. -/
theorem C1_pagination_link_discovery (page : HtmlForest) (url : String)
    (scheme host rest : List Char)
    (hsch : scheme = "https://".data ∨ scheme = "http://".data)
    (hu : url.data = scheme ++ (host ++ '/' :: rest))
    (hh : host ≠ []) (hhc : ∀ c ∈ host, isHostChar c = true)
    (pag : Html) (pags : List Html)
    (hp : findAllNodes "ul" "pagination" page = pag :: pags)
    (hrefs : List String)
    (ha : optMapM (fun a => getAttr a.attrsOf "href")
            (findAllNodes "a" "page-link" pag.childrenOf) = some hrefs) :
    get_pagination_links page url =
      some (url :: hrefs.map (fun h => String.mk (scheme ++ host) ++ h)) ∧
    hrefs.length = (findAllNodes "a" "page-link" pag.childrenOf).length := by
  have ho := originMatch_of_split scheme host rest url hsch hu hh hhc
  refine ⟨?_, optMapM_length _ _ _ ha⟩
  unfold get_pagination_links
  rw [hp]
  simp only [List.head?_cons]
  rw [optMapM_linkTarget url _ ho _ hrefs ha]
  rfl

theorem C1_witness :
    get_pagination_links
      (forestOf [Html.element "ul" [("class", "pagination")] (forestOf
        [Html.element "li" [] (forestOf
          [Html.element "a" [("class", "page-link"), ("href", "/x?page=2")] .nil]),
         Html.element "a" [("class", "page-link"), ("href", "/x?page=3")] .nil])])
      "https://example.com/t/x" =
      some ["https://example.com/t/x", "https://example.com/x?page=2",
            "https://example.com/x?page=3"] := by
  have h := C1_pagination_link_discovery
    (forestOf [Html.element "ul" [("class", "pagination")] (forestOf
      [Html.element "li" [] (forestOf
        [Html.element "a" [("class", "page-link"), ("href", "/x?page=2")] .nil]),
       Html.element "a" [("class", "page-link"), ("href", "/x?page=3")] .nil])])
    "https://example.com/t/x"
    "https://".data "example.com".data "t/x".data
    (Or.inl rfl) (by decide) (by decide) (by decide)
    (Html.element "ul" [("class", "pagination")] (forestOf
      [Html.element "li" [] (forestOf
        [Html.element "a" [("class", "page-link"), ("href", "/x?page=2")] .nil]),
       Html.element "a" [("class", "page-link"), ("href", "/x?page=3")] .nil]))
    [] rfl ["/x?page=2", "/x?page=3"] rfl
  exact h.1.trans (by decide)

theorem parseBlock_wf (b : Html) (hwf : wellFormedBlock b = true) :
    parseBlock b = some (recOf b) := by
  simp only [wellFormedBlock, Bool.and_eq_true] at hwf
  obtain ⟨⟨hnm, hdp⟩, hpr⟩ := hwf
  rw [Option.isSome_iff_exists] at hnm hdp hpr
  obtain ⟨nm, hnm⟩ := hnm
  obtain ⟨p, hdp⟩ := hdp
  obtain ⟨h4, hpr⟩ := hpr
  cases hta : titleAnchor b with
  | none => rw [hta] at hnm; cases hnm
  | some a =>
    rw [hta] at hnm
    simp only [Option.some_bind] at hnm
    unfold parseBlock recOf
    rw [hta]
    simp [hnm, hdp, hpr]

theorem parseBlock_bad (b : Html) (hwf : wellFormedBlock b = false) :
    parseBlock b = none := by
  unfold parseBlock
  cases hta : titleAnchor b with
  | none => rfl
  | some a =>
    cases hnm : getAttr a.attrsOf "title" with
    | none => simp [hnm]
    | some nm =>
      cases hdp : descElem b with
      | none => simp [hnm, hdp]
      | some p =>
        cases hpr : priceElem b with
        | none => simp [hnm, hdp, hpr]
        | some h4 =>
          exfalso
          simp [wellFormedBlock, hta, hnm, hdp, hpr] at hwf

/-- C3: on a page whose card-body blocks each hold a titled anchor, a
description paragraph and a price heading, parse_page returns one record
per block in document order, name from the title attribute and description
and price as whitespace-trimmed text, and a page with zero blocks yields
the empty sequence without error. -/
theorem C3_record_extraction (page : HtmlForest)
    (hwf : ∀ b ∈ findAllNodes "div" "card-body" page, wellFormedBlock b = true) :
    parse_page page = some ((findAllNodes "div" "card-body" page).map recOf) ∧
    ((findAllNodes "div" "card-body" page).map recOf).length =
      (findAllNodes "div" "card-body" page).length ∧
    (findAllNodes "div" "card-body" page = [] → parse_page page = some []) := by
  have h1 := optMapM_eq_map parseBlock recOf (findAllNodes "div" "card-body" page)
    (fun b hb => parseBlock_wf b (hwf b hb))
  refine ⟨h1, by simp, fun he => ?_⟩
  show optMapM parseBlock (findAllNodes "div" "card-body" page) = some []
  rw [he]
  rfl

theorem C3_witness :
    parse_page (forestOf
      [Html.element "div" [("class", "card-body")] (forestOf
        [Html.element "a" [("class", "title"), ("title", "Acer A1")]
          (forestOf [Html.text "Acer A1"]),
         Html.element "p" [("class", "description card-text")]
          (forestOf [Html.text "Nice "]),
         Html.element "h4" [("class", "price")]
          (forestOf [Html.text " $42"])]),
       Html.element "div" [("class", "card-body")] (forestOf
        [Html.element "a" [("class", "title"), ("title", "Dell D2")]
          (forestOf [Html.text "Dell D2"]),
         Html.element "p" [("class", "description card-text")]
          (forestOf [Html.text "Great"]),
         Html.element "h4" [("class", "price")]
          (forestOf [Html.text "$7"])])]) =
    some [[("Name", "Acer A1"), ("Description", "Nice"), ("Price", "$42")],
          [("Name", "Dell D2"), ("Description", "Great"), ("Price", "$7")]] := by
  have h := C3_record_extraction (forestOf
      [Html.element "div" [("class", "card-body")] (forestOf
        [Html.element "a" [("class", "title"), ("title", "Acer A1")]
          (forestOf [Html.text "Acer A1"]),
         Html.element "p" [("class", "description card-text")]
          (forestOf [Html.text "Nice "]),
         Html.element "h4" [("class", "price")]
          (forestOf [Html.text " $42"])]),
       Html.element "div" [("class", "card-body")] (forestOf
        [Html.element "a" [("class", "title"), ("title", "Dell D2")]
          (forestOf [Html.text "Dell D2"]),
         Html.element "p" [("class", "description card-text")]
          (forestOf [Html.text "Great"]),
         Html.element "h4" [("class", "price")]
          (forestOf [Html.text "$7"])])]) (by decide)
  exact h.1.trans (by decide)

/-- C4: a card-body block missing one of its three sub-elements makes
parse_page fail for the whole page: no partial record and no per-block
skip-and-continue. -/
theorem C4_block_failure_aborts_page (page : HtmlForest) (b : Html)
    (hb : b ∈ findAllNodes "div" "card-body" page)
    (hbad : wellFormedBlock b = false) :
    parse_page page = none :=
  optMapM_eq_none parseBlock _ b hb (parseBlock_bad b hbad)

theorem C4_witness :
    parse_page (forestOf
      [Html.element "div" [("class", "card-body")] (forestOf
        [Html.element "a" [("class", "title"), ("title", "Acer A1")]
          (forestOf [Html.text "Acer A1"]),
         Html.element "p" [("class", "description card-text")]
          (forestOf [Html.text "Nice"])])]) = none :=
  C4_block_failure_aborts_page _
    (Html.element "div" [("class", "card-body")] (forestOf
      [Html.element "a" [("class", "title"), ("title", "Acer A1")]
        (forestOf [Html.text "Acer A1"]),
       Html.element "p" [("class", "description card-text")]
        (forestOf [Html.text "Nice"])]))
    (List.Mem.head _) (by decide)

theorem writeRowsLoop_ok (fns : List String) (rows : List Dict) (acc : List (List String))
    (h : ∀ r ∈ rows, ∀ kv ∈ r, fns.contains kv.1 = true) :
    writeRowsLoop fns rows acc = CsvOutcome.ok (acc ++ rows.map (rowCells fns)) := by
  induction rows generalizing acc with
  | nil => simp [writeRowsLoop]
  | cons r rs ih =>
    have hcond : r.all (fun kv => fns.contains kv.1) = true :=
      List.all_eq_true.2 (fun kv hkv => h r (by simp) kv hkv)
    unfold writeRowsLoop
    rw [if_pos hcond,
      ih (acc ++ [rowCells fns r]) (fun x hx kv hkv => h x (List.mem_cons_of_mem _ hx) kv hkv)]
    simp

/-- C6: for a nonempty batch sequence of records carrying the three record
keys, the CSV content is the header row of those keys, taken from the first
record of the first batch, followed by one data row per record across all
batches in batch order then in-batch order, so the number of data rows is
the sum of the batch sizes; and with an empty first batch the fieldname
derivation still uses the first batch and yields the empty header set. -/
theorem C6_csv_header_and_row_count (data : List (List Dict))
    (hne : data ≠ [])
    (hkeys : ∀ b ∈ data, ∀ r ∈ b, dictKeys r = stdKeys) :
    (∀ r0 rs bs, data = (r0 :: rs) :: bs →
      csvFieldnames data = dictKeys r0 ∧
      save_to_csv data = CsvOutcome.ok (stdKeys :: data.flatten.map (rowCells stdKeys)) ∧
      (data.flatten.map (rowCells stdKeys)).length = (data.map List.length).sum) ∧
    (∀ bs, data = [] :: bs → csvFieldnames data = []) := by
  constructor
  · rintro r0 rs bs rfl
    have hf : csvFieldnames ((r0 :: rs) :: bs) = dictKeys r0 := rfl
    have hk0 : dictKeys r0 = stdKeys := hkeys (r0 :: rs) (by simp) r0 (by simp)
    refine ⟨hf, ?_, ?_⟩
    · unfold save_to_csv
      rw [if_neg (by simp)]
      rw [hf, hk0]
      rw [writeRowsLoop_ok _ _ _ ?hall]
      · simp
      case hall =>
        intro r hr kv hkv
        obtain ⟨b, hb, hrb⟩ := List.mem_flatten.1 hr
        have hkr : dictKeys r = stdKeys := hkeys b hb r hrb
        have : kv.1 ∈ dictKeys r := List.mem_map.2 ⟨kv, hkv, rfl⟩
        rw [hkr] at this
        exact List.elem_eq_true_of_mem this
    · rw [List.length_map, List.length_flatten]
  · rintro bs rfl
    rfl

theorem C6_witness :
    (csvFieldnames [[[("Name", "a"), ("Description", "b"), ("Price", "c")]],
        [[("Name", "d"), ("Description", "e"), ("Price", "f")]]] = stdKeys ∧
      save_to_csv [[[("Name", "a"), ("Description", "b"), ("Price", "c")]],
        [[("Name", "d"), ("Description", "e"), ("Price", "f")]]] =
        CsvOutcome.ok [["Name", "Description", "Price"], ["a", "b", "c"], ["d", "e", "f"]]) ∧
    csvFieldnames [[], [[("Name", "d"), ("Description", "e"), ("Price", "f")]]] = [] := by
  have h1 := (C6_csv_header_and_row_count
    [[[("Name", "a"), ("Description", "b"), ("Price", "c")]],
     [[("Name", "d"), ("Description", "e"), ("Price", "f")]]]
    (by decide) (by decide)).1
    [("Name", "a"), ("Description", "b"), ("Price", "c")] []
    [[[("Name", "d"), ("Description", "e"), ("Price", "f")]]] rfl
  have h2 := (C6_csv_header_and_row_count
    [[], [[("Name", "d"), ("Description", "e"), ("Price", "f")]]]
    (by decide) (by decide)).2
    [[[("Name", "d"), ("Description", "e"), ("Price", "f")]]] rfl
  exact ⟨⟨h1.1.trans (by decide), h1.2.1.trans (by decide)⟩, h2⟩

theorem skipWs_cons_not_ws {c : Char} (l : List Char) (h : c.isWhitespace = false) :
    skipWs (c :: l) = c :: l := by
  simp [skipWs, h]

theorem skipWs_replicate_space (n : Nat) (l : List Char) :
    skipWs (List.replicate n ' ' ++ l) = skipWs l := by
  induction n with
  | zero => rfl
  | succ m ih => simp [List.replicate_succ, skipWs, ih]

theorem skipWs_indChars (n : Nat) (l : List Char) :
    skipWs (indChars n ++ l) = skipWs l := by
  simp [indChars, skipWs, skipWs_replicate_space]

theorem hexVal_hexDig (m : Nat) (h : m < 16) : hexVal (hexDig m) = some m := by
  interval_cases m <;> rfl

theorem escapeL_nil : escapeL [] = [] := rfl

theorem escapeL_cons (c : Char) (t : List Char) :
    escapeL (c :: t) = escCharL c ++ escapeL t := by
  simp [escapeL]

theorem length_escapeL (l : List Char) : l.length ≤ (escapeL l).length := by
  induction l with
  | nil => simp [escapeL]
  | cons c t ih =>
    have h1 : 1 ≤ (escCharL c).length := by
      unfold escCharL
      split_ifs <;> simp
    rw [escapeL_cons]
    simp only [List.length_append, List.length_cons]
    omega

theorem parseEsc_u (c : Char) (h8 : c.toNat < 32) (tail : List Char) :
    parseEsc ('u' :: '0' :: '0' :: hexDig (c.toNat / 16) :: hexDig (c.toNat % 16) :: tail) =
      some (c, tail) := by
  have hhi := hexVal_hexDig (c.toNat / 16) (by omega)
  have hlo := hexVal_hexDig (c.toNat % 16) (by omega)
  simp [parseEsc, hhi, hlo, show hexVal '0' = some 0 from rfl]
  rw [show c.toNat / 16 * 16 + c.toNat % 16 = c.toNat from by omega]
  rw [Char.ofNat_toNat]

theorem parseStrLit_escape (l rest : List Char) (fuel : Nat) (hf : l.length + 1 ≤ fuel) :
    parseStrLit fuel (escapeL l ++ '"' :: rest) = some (l, rest) := by
  induction l generalizing fuel with
  | nil =>
    obtain ⟨f, rfl⟩ : ∃ f, fuel = f + 1 := ⟨fuel - 1, by omega⟩
    simp [escapeL, parseStrLit]
  | cons c t ih =>
    obtain ⟨f, rfl⟩ : ∃ f, fuel = f + 1 := ⟨fuel - 1, by omega⟩
    have hfl : t.length + 1 ≤ f := by simp at hf; omega
    have ht := ih f hfl
    rw [escapeL_cons, List.append_assoc]
    by_cases h1 : c = '"'
    · subst h1
      simp [escCharL, parseStrLit, parseEsc, ht]
    · by_cases h2 : c = '\\'
      · subst h2
        simp [escCharL, parseStrLit, parseEsc, ht]
      · by_cases h3 : c = '\x08'
        · subst h3
          simp [escCharL, parseStrLit, parseEsc, ht]
        · by_cases h4 : c = '\x0c'
          · subst h4
            simp [escCharL, parseStrLit, parseEsc, ht]
          · by_cases h5 : c = '\n'
            · subst h5
              simp [escCharL, parseStrLit, parseEsc, ht]
            · by_cases h6 : c = '\r'
              · subst h6
                simp [escCharL, parseStrLit, parseEsc, ht]
              · by_cases h7 : c = '\t'
                · subst h7
                  simp [escCharL, parseStrLit, parseEsc, ht]
                · by_cases h8 : c.toNat < 32
                  · have hesc : escCharL c =
                      ['\\', 'u', '0', '0', hexDig (c.toNat / 16), hexDig (c.toNat % 16)] := by
                      simp [escCharL, h1, h2, h3, h4, h5, h6, h7, h8]
                    rw [hesc]
                    simp only [List.cons_append, List.nil_append]
                    simp [parseStrLit, parseEsc_u c h8, ht]
                  · have hesc : escCharL c = [c] := by
                      simp [escCharL, h1, h2, h3, h4, h5, h6, h7, h8]
                    rw [hesc]
                    simp only [List.cons_append, List.nil_append]
                    simp [parseStrLit, h1, h2, h8, ht]

theorem renderMemberL_expand (kv : String × String) (rest : List Char) :
    renderMemberL kv ++ rest =
      '"' :: (escapeL kv.1.data ++ '"' :: ':' :: ' ' :: '"' ::
        (escapeL kv.2.data ++ '"' :: rest)) := by
  simp [renderMemberL, renderStrL]

theorem parseMember_render (kv : String × String) (rest l : List Char)
    (hskip : skipWs l = renderMemberL kv ++ rest) :
    parseMember l = some (kv, rest) := by
  have hb1 := length_escapeL kv.1.data
  have hb2 := length_escapeL kv.2.data
  unfold parseMember
  rw [hskip, renderMemberL_expand]
  set R2 := escapeL kv.2.data ++ '"' :: rest with hR2
  set R1 := escapeL kv.1.data ++ '"' :: ':' :: ' ' :: '"' :: R2 with hR1
  have hs1 : parseStrLit R1.length R1 = some (kv.1.data, ':' :: ' ' :: '"' :: R2) := by
    rw [hR1]
    exact parseStrLit_escape _ _ _
      (by simp only [List.length_append, List.length_cons]; omega)
  have hs2 : parseStrLit R2.length R2 = some (kv.2.data, rest) := by
    rw [hR2]
    exact parseStrLit_escape _ _ _
      (by simp only [List.length_append, List.length_cons]; omega)
  simp [hs1, hs2, skipWs]

theorem skipWs_renderMemberL (kv : String × String) (r : List Char) :
    skipWs (renderMemberL kv ++ r) = renderMemberL kv ++ r := by
  rw [renderMemberL_expand]
  exact skipWs_cons_not_ws _ (by decide)

theorem skipWs_renderDictL (d : Dict) (r : List Char) :
    skipWs (renderDictL d ++ r) = renderDictL d ++ r := by
  cases d <;>
    · simp only [renderDictL, List.cons_append]
      exact skipWs_cons_not_ws _ (by decide)

theorem length_flatMap_ge {α : Type} (f : α → List Char) (hs : ∀ a, 1 ≤ (f a).length)
    (l : List α) : l.length ≤ (l.flatMap f).length := by
  induction l with
  | nil => simp
  | cons a t ih =>
    simp only [List.flatMap_cons, List.length_append, List.length_cons]
    have := hs a
    omega

theorem length_indChars (n : Nat) : (indChars n).length = n + 1 := by
  simp [indChars]

theorem length_renderDictL (d : Dict) : d.length + 1 ≤ (renderDictL d).length := by
  cases d with
  | nil => simp [renderDictL]
  | cons m ms =>
    have h := length_flatMap_ge (fun kv => ',' :: (indChars 8 ++ renderMemberL kv))
      (fun a => by simp) ms
    simp only [renderDictL, List.length_cons, List.length_append, length_indChars]
    omega

theorem parseMembersLoop_render (ms : Dict) (acc : Dict) (rest : List Char) (fuel : Nat)
    (hf : ms.length + 1 ≤ fuel) :
    parseMembersLoop fuel acc
      (ms.flatMap (fun kv => ',' :: (indChars 8 ++ renderMemberL kv)) ++
        (indChars 4 ++ '\x7d' :: rest)) =
      some (acc ++ ms, rest) := by
  induction ms generalizing acc fuel with
  | nil =>
    obtain ⟨f, rfl⟩ : ∃ f, fuel = f + 1 := ⟨fuel - 1, by omega⟩
    simp only [List.flatMap_nil, List.nil_append, parseMembersLoop, skipWs_indChars]
    simp [skipWs_cons_not_ws _ (by decide : ('\x7d').isWhitespace = false)]
  | cons m ms ih =>
    obtain ⟨f, rfl⟩ : ∃ f, fuel = f + 1 := ⟨fuel - 1, by omega⟩
    simp only [List.flatMap_cons, List.append_assoc, List.cons_append]
    have hpm : parseMember (indChars 8 ++ (renderMemberL m ++
        (ms.flatMap (fun kv => ',' :: (indChars 8 ++ renderMemberL kv)) ++
          (indChars 4 ++ '\x7d' :: rest)))) =
        some (m, ms.flatMap (fun kv => ',' :: (indChars 8 ++ renderMemberL kv)) ++
          (indChars 4 ++ '\x7d' :: rest)) := by
      apply parseMember_render
      rw [skipWs_indChars, skipWs_renderMemberL]
    unfold parseMembersLoop
    rw [skipWs_cons_not_ws _ (by decide : (',').isWhitespace = false)]
    simp only [reduceIte]
    rw [hpm]
    have := ih (acc ++ [m]) f (by simp at hf ⊢; omega)
    simpa using this

theorem parseDict_render (d : Dict) (rest l : List Char) (fuel : Nat)
    (hf : d.length + 1 ≤ fuel) (hskip : skipWs l = renderDictL d ++ rest) :
    parseDict fuel l = some (d, rest) := by
  cases d with
  | nil =>
    unfold parseDict
    rw [hskip]
    simp only [renderDictL, List.cons_append]
    have hsk2 : skipWs ('\x7d' :: rest) = '\x7d' :: rest :=
      skipWs_cons_not_ws _ (by decide)
    simp [hsk2]
  | cons m ms =>
    unfold parseDict
    rw [hskip]
    simp only [renderDictL, List.cons_append, List.append_assoc, List.singleton_append,
      List.nil_append, reduceIte, if_true]
    have hskR : skipWs (indChars 8 ++ (renderMemberL m ++
        (ms.flatMap (fun kv => ',' :: (indChars 8 ++ renderMemberL kv)) ++
          (indChars 4 ++ '\x7d' :: rest)))) =
        renderMemberL m ++
          (ms.flatMap (fun kv => ',' :: (indChars 8 ++ renderMemberL kv)) ++
            (indChars 4 ++ '\x7d' :: rest)) := by
      rw [skipWs_indChars, skipWs_renderMemberL]
    have hmem := parseMember_render m
      (ms.flatMap (fun kv => ',' :: (indChars 8 ++ renderMemberL kv)) ++
        (indChars 4 ++ '\x7d' :: rest)) _ hskR
    have hloop := parseMembersLoop_render ms [m] rest fuel (by simp at hf ⊢; omega)
    have hskR2 : skipWs (indChars 8 ++ (renderMemberL m ++
        (ms.flatMap (fun kv => ',' :: (indChars 8 ++ renderMemberL kv)) ++
          (indChars 4 ++ '\x7d' :: rest)))) =
        '"' :: (escapeL m.1.data ++ '"' :: ':' :: ' ' :: '"' ::
          (escapeL m.2.data ++ '"' ::
            (ms.flatMap (fun kv => ',' :: (indChars 8 ++ renderMemberL kv)) ++
              (indChars 4 ++ '\x7d' :: rest)))) := by
      rw [hskR, renderMemberL_expand]
    rw [hskR2]
    simp only [reduceIte]
    rw [if_neg (by decide), hmem]
    simpa using hloop

theorem renderDictL_cons_form (d : Dict) : ∃ t, renderDictL d = '\x7b' :: t := by
  cases d <;> exact ⟨_, rfl⟩

theorem length_renderArrL (ds : List Dict) : ds.length ≤ (renderArrL ds).length := by
  cases ds with
  | nil => simp [renderArrL]
  | cons d t =>
    have h := length_flatMap_ge (fun d2 => ',' :: (indChars 4 ++ renderDictL d2))
      (fun a => by simp) t
    simp only [renderArrL, List.length_cons, List.length_append, length_indChars]
    omega

theorem parseItemsLoop_render (ds : List Dict) (acc : List Dict) (rest : List Char) (fuel : Nat)
    (hf : ds.length + 1 ≤ fuel) :
    parseItemsLoop fuel acc
      (ds.flatMap (fun d => ',' :: (indChars 4 ++ renderDictL d)) ++ '\n' :: ']' :: rest) =
      some (acc ++ ds, rest) := by
  induction ds generalizing acc fuel with
  | nil =>
    obtain ⟨f, rfl⟩ : ∃ f, fuel = f + 1 := ⟨fuel - 1, by omega⟩
    simp only [List.flatMap_nil, List.nil_append, parseItemsLoop]
    have h1 : skipWs (']' :: rest) = ']' :: rest := skipWs_cons_not_ws _ (by decide)
    simp [skipWs, h1]
  | cons d ds ih =>
    obtain ⟨f, rfl⟩ : ∃ f, fuel = f + 1 := ⟨fuel - 1, by omega⟩
    simp only [List.flatMap_cons, List.append_assoc, List.cons_append]
    unfold parseItemsLoop
    rw [skipWs_cons_not_ws _ (by decide : (',').isWhitespace = false)]
    simp only [reduceIte]
    have hsk : skipWs (indChars 4 ++ (renderDictL d ++
        (ds.flatMap (fun d2 => ',' :: (indChars 4 ++ renderDictL d2)) ++ '\n' :: ']' :: rest))) =
        renderDictL d ++
          (ds.flatMap (fun d2 => ',' :: (indChars 4 ++ renderDictL d2)) ++ '\n' :: ']' :: rest) := by
      rw [skipWs_indChars, skipWs_renderDictL]
    have hb : d.length + 1 ≤ (indChars 4 ++ (renderDictL d ++
        (ds.flatMap (fun d2 => ',' :: (indChars 4 ++ renderDictL d2)) ++
          '\n' :: ']' :: rest))).length := by
      have := length_renderDictL d
      simp only [List.length_append, List.length_cons, length_indChars]
      omega
    have hd := parseDict_render d _ _ _ hb hsk
    rw [hd]
    have := ih (acc ++ [d]) f (by simp at hf ⊢; omega)
    simpa using this

theorem parseArr_render (ds : List Dict) (rest l : List Char) (fuel : Nat)
    (hf : ds.length + 1 ≤ fuel) (hskip : skipWs l = renderArrL ds ++ rest) :
    parseArr fuel l = some (ds, rest) := by
  cases ds with
  | nil =>
    unfold parseArr
    rw [hskip]
    simp only [renderArrL, List.cons_append]
    have hsk2 : skipWs (']' :: rest) = ']' :: rest := skipWs_cons_not_ws _ (by decide)
    simp [hsk2]
  | cons d ds =>
    unfold parseArr
    rw [hskip]
    simp only [renderArrL, List.cons_append, List.append_assoc, List.singleton_append,
      List.nil_append, reduceIte, if_true]
    have hsk : skipWs (indChars 4 ++ (renderDictL d ++
        (ds.flatMap (fun d2 => ',' :: (indChars 4 ++ renderDictL d2)) ++ '\n' :: ']' :: rest))) =
        renderDictL d ++
          (ds.flatMap (fun d2 => ',' :: (indChars 4 ++ renderDictL d2)) ++ '\n' :: ']' :: rest) := by
      rw [skipWs_indChars, skipWs_renderDictL]
    obtain ⟨t, ht⟩ := renderDictL_cons_form d
    have hsk2 : skipWs (indChars 4 ++ (renderDictL d ++
        (ds.flatMap (fun d2 => ',' :: (indChars 4 ++ renderDictL d2)) ++ '\n' :: ']' :: rest))) =
        '\x7b' :: (t ++
          (ds.flatMap (fun d2 => ',' :: (indChars 4 ++ renderDictL d2)) ++ '\n' :: ']' :: rest)) := by
      rw [hsk, ht]
      rfl
    have hb : d.length + 1 ≤ (indChars 4 ++ (renderDictL d ++
        (ds.flatMap (fun d2 => ',' :: (indChars 4 ++ renderDictL d2)) ++
          '\n' :: ']' :: rest))).length := by
      have := length_renderDictL d
      simp only [List.length_append, List.length_cons, length_indChars]
      omega
    have hd := parseDict_render d _ _ _ hb hsk
    have hloop := parseItemsLoop_render ds [d] rest fuel (by simp at hf ⊢; omega)
    rw [hsk2]
    simp only [reduceIte]
    rw [if_neg (by decide), hd]
    simpa using hloop

theorem parseJson_renderJson (flat : List Dict) : parseJson (renderJson flat) = some flat := by
  unfold parseJson renderJson
  have hskip : skipWs (renderArrL flat) = renderArrL flat ++ [] := by
    rw [List.append_nil]
    cases flat <;> exact skipWs_cons_not_ws _ (by decide)
  have harr := parseArr_render flat [] (renderArrL flat) ((renderArrL flat).length + 1)
    (by have := length_renderArrL flat; omega) hskip
  rw [show (String.mk (renderArrL flat)).data = renderArrL flat from rfl]
  rw [harr]
  simp [skipWs]

/-- C8: for a nonempty batch sequence, save_to_json writes the flattened
concatenation of all batches as one JSON array of string-field objects, and
re-parsing that text yields exactly the same flattened record sequence;
non-ASCII characters are rendered literally, never escaped. -/
theorem C8_json_roundtrip (data : List (List Dict)) (hne : data ≠ []) :
    save_to_json data = JsonOutcome.ok (renderJson data.flatten) ∧
    parseJson (renderJson data.flatten) = some data.flatten ∧
    (∀ c : Char, 128 ≤ c.toNat → escChar c = String.mk [c]) := by
  refine ⟨?_, parseJson_renderJson _, ?_⟩
  · unfold save_to_json
    rw [if_neg (by simpa using hne)]
  · intro c hc
    unfold escChar escCharL
    split_ifs <;>
      first
        | rfl
        | (exfalso; subst_vars; revert hc; decide)
        | (exfalso; omega)

theorem C8_witness :
    save_to_json [[[("Name", "Café")]]] = JsonOutcome.ok (renderJson [[("Name", "Café")]]) ∧
    parseJson (renderJson [[("Name", "Café")]]) = some [[("Name", "Café")]] := by
  have h := C8_json_roundtrip [[[("Name", "Café")]]] (by decide)
  exact ⟨h.1.trans (by rfl), h.2.1.trans (by decide)⟩
